import Mathlib

/-!
# Verification of the chat relay (anthropic-play)

A shallow embedding of the chat relay server and client stream machinery:
message sanitization and conversation validation (`server/trpc.ts`, the
standalone chat handler), the relay stream bodies, the client stream decoder
(`hooks/useChat.tsx`), the complete-event content extraction, the session
controller transitions, and the environment schema.

JavaScript strings are modelled by Lean `String` (a list of characters);
`String.prototype.trim` is modelled by dropping whitespace characters from
both ends; `string.length` is the character count.
-/

set_option maxHeartbeats 1000000

namespace AnthropicPlay

/-! ## Model of JavaScript `String.prototype.trim` -/

/-- Drop whitespace from both ends of a character list (JS `trim`). -/
def trimChars (l : List Char) : List Char :=
  ((l.dropWhile Char.isWhitespace).reverse.dropWhile Char.isWhitespace).reverse

/-- Model of JavaScript `s.trim()`. -/
def jsTrim (s : String) : String :=
  String.mk (trimChars s.data)

/-! ## Chat message data model

The server handlers receive `{ role, content }` records whose `role` was
already constrained to `"user" | "assistant"` by `ChatRequestSchema`
(`types/chat.schema.ts`), so the role is modelled as a closed enum; the
`as "user" | "assistant"` cast inside `sanitizeMessages` is the identity on
this domain. -/

inductive Role where
  | user
  | assistant
deriving DecidableEq, Repr

/-- A `{ role, content }` entry of a `ChatRequest`. -/
structure Msg where
  role : Role
  content : String
deriving DecidableEq, Repr

/-! ## `sanitizeMessages` (server/trpc.ts lines 93-111 / chat handler lines 20-36)

```js
return messages
  .filter((msg) => { const content = msg.content?.trim();
                     return content && content.length > 0; })
  .map((msg) => ({ role: msg.role, content: msg.content.trim() }))
  .filter((msg, index, arr) => {
    if (index === arr.length - 1) return true;
    return msg.role !== arr[index + 1].role; });
```
-/

/-- The predicate of the indexed `filter`: an element (at index `p.1`) is kept
when it is the last, or when its role differs from its successor `arr[p.1+1]`. -/
def keepPred (arr : List Msg) (p : Nat × Msg) : Bool :=
  if p.1 = arr.length - 1 then true
  else
    match arr.get? (p.1 + 1) with
    | some next => decide (p.2.role ≠ next.role)
    | none => true

/-- The third stage of `sanitizeMessages`: the JS indexed `filter`. -/
def keepLastOfRuns (arr : List Msg) : List Msg :=
  (arr.enum.filter (keepPred arr)).map Prod.snd

/-- `sanitizeMessages` from `server/trpc.ts` (identical in the standalone
chat handler). -/
def sanitizeMessages (messages : List Msg) : List Msg :=
  keepLastOfRuns
    ((messages.filter (fun msg => jsTrim msg.content ≠ "")).map
      (fun msg => { role := msg.role, content := jsTrim msg.content }))

/-! ## `validateConversation` (server/trpc.ts lines 114-140)

Throwing is modelled with `Except String`; the `for` loop throwing on the
first over-long message is modelled by `List.any` (the claims only concern
whether an error is thrown, and the error string is the same for every
over-long message). -/

def validateConversation (messages : List Msg) : Except String (List Msg) :=
  match messages.getLast? with
  | none => .error "No valid messages found"
  | some lastMessage =>
    if lastMessage.role ≠ Role.user then
      .error "Conversation must end with a user message"
    else if messages.any (fun msg => msg.content.length > 10000) then
      .error "Message too long (max 10,000 characters)"
    else if messages.length > 100 then
      .error "Conversation too long (max 100 messages)"
    else
      .ok messages

/-! ## Spec-side restatement of sanitization

The spec phrases the second stage as: collapse each maximal run of
consecutive same-role messages, keeping only the last message of the run.
`runs` groups a list into maximal same-role runs; `collapseRunsSpec` keeps
the last element of each run. -/

/-- Prepend a message to a list of runs: extend the first run when the roles
match, otherwise start a new run. -/
def runsCons (a : Msg) : List (List Msg) → List (List Msg)
  | [] => [[a]]
  | [] :: rs => [a] :: rs
  | (b :: r) :: rs =>
    if a.role = b.role then (a :: b :: r) :: rs else [a] :: (b :: r) :: rs

/-- Group a message list into maximal runs of consecutive equal roles. -/
def runs : List Msg → List (List Msg)
  | [] => []
  | a :: t => runsCons a (runs t)

/-- Spec-side sanitization stage two: keep only the last message of each
maximal same-role run. -/
def collapseRunsSpec (l : List Msg) : List Msg :=
  (runs l).filterMap List.getLast?

/-- Spec-side sanitization stage one: drop messages whose trimmed content is
empty, trimming the content of the survivors. -/
def dropEmptyAndTrim (messages : List Msg) : List Msg :=
  (messages.filter (fun msg => jsTrim msg.content ≠ "")).map
    (fun msg => { role := msg.role, content := jsTrim msg.content })

/-- Structural form of `keepLastOfRuns`: drop an element when its successor
has the same role. -/
def collapseRuns : List Msg → List Msg
  | [] => []
  | [m] => [m]
  | a :: b :: rest =>
    if a.role = b.role then collapseRuns (b :: rest)
    else a :: collapseRuns (b :: rest)

/-! ### The indexed filter equals the structural recursion -/

theorem keepPred_shift (a : Msg) (t : List Msg) (i : Nat) (m : Msg)
    (hmem : (i, m) ∈ t.enum) :
    keepPred (a :: t) (i + 1, m) = keepPred t (i, m) := by
  have hget : t.get? i = some m := List.mk_mem_enum_iff_get?.mp hmem
  have hlt : i < t.length := List.get?_eq_some.mp hget |>.1
  unfold keepPred
  simp only [List.length_cons]
  by_cases h : i = t.length - 1
  · have h1 : i + 1 = t.length := by omega
    simp only [h, h1]
    simp only [eq_self_iff_true, if_true]
    rw [if_pos (by omega)]
  · have h1 : ¬ (i + 1 = t.length + 1 - 1) := by omega
    simp only [h, if_neg h1, if_false]
    have : (a :: t).get? (i + 1 + 1) = t.get? (i + 1) := rfl
    rw [this]

theorem keepLastOfRuns_cons (a : Msg) (t : List Msg) :
    keepLastOfRuns (a :: t) =
      (if keepPred (a :: t) (0, a) then [a] else []) ++ keepLastOfRuns t := by
  unfold keepLastOfRuns
  rw [List.enum_cons']
  rw [List.filter_cons]
  have hshift :
      (t.enum.map (Prod.map (· + 1) id)).filter (keepPred (a :: t)) =
        (t.enum.filter (keepPred t)).map (Prod.map (· + 1) id) := by
    rw [List.map_filter]
    congr 1
    apply List.filter_congr
    intro p hp
    obtain ⟨i, m⟩ := p
    simpa using keepPred_shift a t i m hp
  by_cases h : keepPred (a :: t) (0, a)
  · simp only [h, if_true, List.map_cons, hshift, List.map_map]
    simp [Function.comp_def]
  · simp only [h, if_false, Bool.false_eq_true, hshift, List.map_map]
    simp [Function.comp_def]

theorem keepPred_zero_nil (a : Msg) : keepPred [a] (0, a) = true := by
  unfold keepPred
  simp

theorem keepPred_zero_cons (a b : Msg) (t : List Msg) :
    keepPred (a :: b :: t) (0, a) = decide (a.role ≠ b.role) := by
  unfold keepPred
  simp only [List.length_cons]
  have h0 : ¬ (0 = t.length + 1 + 1 - 1) := by omega
  rw [if_neg h0]
  rfl

/-- The literal indexed filter of `sanitizeMessages` equals the structural
"drop an element whose successor has the same role" recursion. -/
theorem keepLastOfRuns_eq_collapseRuns : ∀ l, keepLastOfRuns l = collapseRuns l
  | [] => rfl
  | [m] => by
    rw [keepLastOfRuns_cons, keepPred_zero_nil]
    rfl
  | a :: b :: rest => by
    rw [keepLastOfRuns_cons, keepPred_zero_cons,
      keepLastOfRuns_eq_collapseRuns (b :: rest)]
    by_cases h : a.role = b.role
    · simp [collapseRuns, h]
    · simp [collapseRuns, h]

/-! ### The structural recursion keeps the last message of each maximal run -/

theorem runs_cons_head (b : Msg) (t : List Msg) :
    ∃ r rs, runs (b :: t) = (b :: r) :: rs := by
  show ∃ r rs, runsCons b (runs t) = (b :: r) :: rs
  match runs t with
  | [] => exact ⟨[], [], rfl⟩
  | [] :: rs => exact ⟨[], rs, rfl⟩
  | (c :: r) :: rs =>
    by_cases h : b.role = c.role
    · exact ⟨c :: r, rs, by simp [runsCons, h]⟩
    · exact ⟨[], (c :: r) :: rs, by simp [runsCons, h]⟩

theorem collapseRuns_eq_spec : ∀ l, collapseRuns l = collapseRunsSpec l
  | [] => rfl
  | [m] => rfl
  | a :: b :: rest => by
    have ih := collapseRuns_eq_spec (b :: rest)
    obtain ⟨r, rs, hr⟩ := runs_cons_head b rest
    have hruns : runs (a :: b :: rest) = runsCons a ((b :: r) :: rs) := by
      show runsCons a (runs (b :: rest)) = _
      rw [hr]
    unfold collapseRuns
    rw [ih]
    unfold collapseRunsSpec
    rw [hruns]
    have hrc : runsCons a ((b :: r) :: rs) =
        if a.role = b.role then (a :: b :: r) :: rs else [a] :: (b :: r) :: rs := rfl
    rw [hrc, hr]
    by_cases h : a.role = b.role
    · rw [if_pos h, if_pos h, List.filterMap_cons, List.filterMap_cons,
        List.getLast?_cons_cons]
    · rw [if_neg h, if_neg h, List.filterMap_cons]
      rfl

/-- `sanitizeMessages` factors as: drop-empty-and-trim, then keep the last
message of each maximal same-role run. -/
theorem sanitizeMessages_eq_spec (messages : List Msg) :
    sanitizeMessages messages = collapseRunsSpec (dropEmptyAndTrim messages) := by
  unfold sanitizeMessages dropEmptyAndTrim
  rw [keepLastOfRuns_eq_collapseRuns, collapseRuns_eq_spec]

/-! ### Idempotence of trimming -/

theorem head_dropWhile_not (p : Char → Bool) :
    ∀ l : List Char, ∀ a, (l.dropWhile p).head? = some a → p a = false := by
  intro l
  induction l with
  | nil => intro a h; simp at h
  | cons c t ih =>
    intro a h
    rw [List.dropWhile_cons] at h
    by_cases hc : p c
    · rw [if_pos hc] at h
      exact ih a h
    · rw [if_neg hc] at h
      simp only [List.head?_cons, Option.some.injEq] at h
      rw [← h]
      exact Bool.of_not_eq_true hc

theorem dropWhile_eq_self_of_head (p : Char → Bool) (l : List Char)
    (h : ∀ a, l.head? = some a → p a = false) : l.dropWhile p = l := by
  cases l with
  | nil => rfl
  | cons c t =>
    rw [List.dropWhile_cons, if_neg]
    rw [h c rfl]
    simp

theorem trimChars_idem (l : List Char) : trimChars (trimChars l) = trimChars l := by
  unfold trimChars
  set A := l.dropWhile Char.isWhitespace with hA
  set B := A.reverse.dropWhile Char.isWhitespace with hB
  have hBsuf : B <:+ A.reverse := List.dropWhile_suffix _
  have hBpre : B.reverse <+: A := by
    have := hBsuf.reverse
    rwa [List.reverse_reverse] at this
  have hstep1 : B.reverse.dropWhile Char.isWhitespace = B.reverse := by
    apply dropWhile_eq_self_of_head
    intro a ha
    obtain ⟨t, ht⟩ := hBpre
    have hne : B.reverse ≠ [] := by
      intro hnil
      rw [hnil] at ha
      simp at ha
    have : A.head? = some a := by
      rw [← ht, List.head?_append_of_ne_nil _ hne, ha]
    exact head_dropWhile_not _ l a this
  have hstep2 : B.dropWhile Char.isWhitespace = B := by
    apply dropWhile_eq_self_of_head
    intro a ha
    exact head_dropWhile_not _ A.reverse a ha
  rw [hstep1, List.reverse_reverse, hstep2]

theorem jsTrim_idem (s : String) : jsTrim (jsTrim s) = jsTrim s := by
  unfold jsTrim
  exact congrArg String.mk (trimChars_idem s.data)

/-! ### Sanitization output is collapse-stable -/

theorem collapseRuns_sublist : ∀ l : List Msg, List.Sublist (collapseRuns l) l
  | [] => List.Sublist.refl []
  | [m] => List.Sublist.refl [m]
  | a :: b :: rest => by
    unfold collapseRuns
    by_cases h : a.role = b.role
    · rw [if_pos h]
      exact (collapseRuns_sublist (b :: rest)).cons a
    · rw [if_neg h]
      exact (collapseRuns_sublist (b :: rest)).cons₂ a

theorem collapseRuns_head?_role : ∀ l : List Msg,
    (collapseRuns l).head?.map Msg.role = l.head?.map Msg.role
  | [] => rfl
  | [m] => rfl
  | a :: b :: rest => by
    unfold collapseRuns
    by_cases h : a.role = b.role
    · rw [if_pos h, collapseRuns_head?_role (b :: rest)]
      simp [h]
    · rw [if_neg h]
      rfl

theorem collapseRuns_chain' : ∀ l : List Msg,
    List.Chain' (fun x y => x.role ≠ y.role) (collapseRuns l)
  | [] => List.chain'_nil
  | [m] => List.chain'_singleton m
  | a :: b :: rest => by
    unfold collapseRuns
    by_cases h : a.role = b.role
    · rw [if_pos h]
      exact collapseRuns_chain' (b :: rest)
    · rw [if_neg h]
      rw [List.chain'_cons']
      refine ⟨?_, collapseRuns_chain' (b :: rest)⟩
      intro y hy
      have hrole := collapseRuns_head?_role (b :: rest)
      rw [hy] at hrole
      simp only [Option.map_some', List.head?_cons] at hrole
      have hyb : y.role = b.role := Option.some.inj hrole
      intro hcontra
      apply h
      rw [hcontra, hyb]

theorem collapseRuns_eq_self_of_chain' : ∀ l : List Msg,
    List.Chain' (fun x y => x.role ≠ y.role) l → collapseRuns l = l
  | [] => fun _ => rfl
  | [m] => fun _ => rfl
  | a :: b :: rest => fun h => by
    rw [List.chain'_cons] at h
    unfold collapseRuns
    rw [if_neg h.1, collapseRuns_eq_self_of_chain' (b :: rest) h.2]

theorem collapseRuns_idem (l : List Msg) :
    collapseRuns (collapseRuns l) = collapseRuns l :=
  collapseRuns_eq_self_of_chain' _ (collapseRuns_chain' l)

/-- Every element of a sanitized list is already trimmed and non-empty. -/
theorem sanitize_mem_trimmed (messages : List Msg) :
    ∀ m ∈ sanitizeMessages messages, jsTrim m.content = m.content ∧ jsTrim m.content ≠ "" := by
  intro m hm
  unfold sanitizeMessages at hm
  rw [keepLastOfRuns_eq_collapseRuns] at hm
  have hm2 := (collapseRuns_sublist _).subset hm
  rw [List.mem_map] at hm2
  obtain ⟨orig, horig, heq⟩ := hm2
  rw [List.mem_filter] at horig
  have hcontent : m.content = jsTrim orig.content := by rw [← heq]
  constructor
  · rw [hcontent, jsTrim_idem]
  · rw [hcontent, jsTrim_idem]
    simpa using horig.2

/-- Stage one of sanitization is the identity on a sanitized list. -/
theorem dropEmptyAndTrim_sanitized (messages : List Msg) :
    dropEmptyAndTrim (sanitizeMessages messages) = sanitizeMessages messages := by
  unfold dropEmptyAndTrim
  have hfilter : (sanitizeMessages messages).filter (fun msg => jsTrim msg.content ≠ "") =
      sanitizeMessages messages := by
    rw [List.filter_eq_self]
    intro m hm
    have := (sanitize_mem_trimmed messages m hm).2
    simpa using this
  rw [hfilter]
  have : ∀ m ∈ sanitizeMessages messages,
      (fun msg => Msg.mk msg.role (jsTrim msg.content)) m = id m := by
    intro m hm
    have := (sanitize_mem_trimmed messages m hm).1
    simp only [id]
    rw [this]
  rw [List.map_congr_left this, List.map_id]

/-! ## Claim theorems C1 - C3 -/

/-- C1: for every input list of `{role, content}` messages, `sanitizeMessages`
returns the list obtained by first dropping every message whose trimmed
content is empty (trimming the content of the survivors), and then collapsing
each maximal run of consecutive same-role messages to only the last message of
that run; in particular `[{user,"a"},{user,"b"}]` sanitizes to `[{user,"b"}]`
only. -/
theorem sanitizeMessages_drops_empty_then_collapses_runs :
    (∀ messages : List Msg,
        sanitizeMessages messages = collapseRunsSpec (dropEmptyAndTrim messages)) ∧
      sanitizeMessages [Msg.mk Role.user "a", Msg.mk Role.user "b"] =
        [Msg.mk Role.user "b"] :=
  ⟨sanitizeMessages_eq_spec, by decide⟩

/-- C2: `sanitizeMessages` is idempotent: applying it to its own output yields
the same result as applying it once. -/
theorem sanitizeMessages_idempotent (messages : List Msg) :
    sanitizeMessages (sanitizeMessages messages) = sanitizeMessages messages := by
  have h1 : ∀ l, sanitizeMessages l = keepLastOfRuns (dropEmptyAndTrim l) :=
    fun _ => rfl
  rw [h1 (sanitizeMessages messages), dropEmptyAndTrim_sanitized,
    keepLastOfRuns_eq_collapseRuns, h1 messages, keepLastOfRuns_eq_collapseRuns]
  exact collapseRuns_idem _

/-- A 100-message conversation whose last message is a 10,000-character user
message: the largest conversation the validator accepts. -/
def conv100max : List Msg :=
  List.replicate 99 (Msg.mk Role.assistant "x") ++
    [Msg.mk Role.user (String.mk (List.replicate 10000 'a'))]

/-- A 101-message conversation ending in a short user message. -/
def conv101 : List Msg :=
  List.replicate 100 (Msg.mk Role.assistant "x") ++ [Msg.mk Role.user "hi"]

/-- A single user message of 10,001 characters. -/
def convLongMsg : List Msg :=
  [Msg.mk Role.user (String.mk (List.replicate 10001 'a'))]

theorem length_mk_eq (l : List Char) : (String.mk l).length = l.length := rfl

theorem validateConversation_isOk_iff (messages : List Msg) :
    (validateConversation messages).isOk = true ↔
      (messages ≠ [] ∧
        (∀ m, messages.getLast? = some m → m.role = Role.user) ∧
        (∀ m ∈ messages, m.content.length ≤ 10000) ∧
        messages.length ≤ 100) := by
  unfold validateConversation
  rcases hlast : messages.getLast? with _ | lastMessage
  · have hnil : messages = [] := List.getLast?_eq_none_iff.mp hlast
    subst hnil
    simp [Except.isOk, Except.toBool]
  · have hne : messages ≠ [] := by
      intro h
      rw [h] at hlast
      simp at hlast
    simp only []
    split_ifs with h1 h2 h3
    · simp only [Except.isOk, Except.toBool, Bool.false_eq_true, false_iff]
      intro hcl
      exact h1 (hcl.2.1 lastMessage rfl)
    · simp only [Except.isOk, Except.toBool, Bool.false_eq_true, false_iff]
      intro hcl
      rw [List.any_eq_true] at h2
      obtain ⟨m, hm, hgt⟩ := h2
      have := hcl.2.2.1 m hm
      simp only [decide_eq_true_eq] at hgt
      omega
    · simp only [Except.isOk, Except.toBool, Bool.false_eq_true, false_iff]
      intro hcl
      have := hcl.2.2.2
      omega
    · simp only [Except.isOk, Except.toBool, true_iff]
      refine ⟨hne, ?_, ?_, by omega⟩
      · intro m hm
        have hm' := Option.some.inj hm
        subst hm'
        exact not_not.mp (by simpa using h1)
      · intro m hm
        by_contra hgt
        apply h2
        rw [List.any_eq_true]
        exact ⟨m, hm, by simp; omega⟩

theorem conv100max_passes : (validateConversation conv100max).isOk = true := by
  rw [validateConversation_isOk_iff]
  refine ⟨by simp [conv100max], ?_, ?_, ?_⟩
  · intro m hm
    unfold conv100max at hm
    rw [List.getLast?_concat] at hm
    have := Option.some.inj hm
    subst this
    rfl
  · intro m hm
    unfold conv100max at hm
    rw [List.mem_append] at hm
    rcases hm with hm | hm
    · have hmx := List.eq_of_mem_replicate hm
      subst hmx
      decide
    · rw [List.mem_singleton] at hm
      subst hm
      show (String.mk (List.replicate 10000 'a')).length ≤ 10000
      rw [length_mk_eq, List.length_replicate]
  · unfold conv100max
    simp

theorem conv101_fails : (validateConversation conv101).isOk = false := by
  rw [Bool.eq_false_iff]
  intro h
  have := ((validateConversation_isOk_iff conv101).mp h).2.2.2
  unfold conv101 at this
  simp at this

theorem convLongMsg_fails : (validateConversation convLongMsg).isOk = false := by
  rw [Bool.eq_false_iff]
  intro h
  have hlen := ((validateConversation_isOk_iff convLongMsg).mp h).2.2.1
    (Msg.mk Role.user (String.mk (List.replicate 10001 'a'))) (by simp [convLongMsg])
  have hlen2 : (String.mk (List.replicate 10001 'a')).length ≤ 10000 := hlen
  rw [length_mk_eq, List.length_replicate] at hlen2
  omega

/-- C3: `validateConversation` accepts exactly the lists that are non-empty,
end with a user message, have every content at most 10,000 characters, and
have at most 100 messages — it errors if and only if one of the four
documented conditions is violated; the thresholds are exact (a 100-message
list containing a 10,000-character message passes, while a 101-message list or
a 10,001-character message fails). -/
theorem validateConversation_exact_conditions :
    (∀ messages : List Msg,
        (validateConversation messages).isOk = true ↔
          (messages ≠ [] ∧
            (∀ m, messages.getLast? = some m → m.role = Role.user) ∧
            (∀ m ∈ messages, m.content.length ≤ 10000) ∧
            messages.length ≤ 100)) ∧
      (validateConversation conv100max).isOk = true ∧
      (validateConversation conv101).isOk = false ∧
      (validateConversation convLongMsg).isOk = false :=
  ⟨validateConversation_isOk_iff, conv100max_passes, conv101_fails, convLongMsg_fails⟩

/-! ## Provider message model (types/anthropic.schema.ts)

`MessageSchema` validates the final message's `content` against a closed union
of six block kinds and `stop_reason` against a closed enum, while
`ModelSchema` ends in a `z.string()` catch-all. Following the design notes
(the provider payload is a drifting union, to be modelled "with a
passthrough/unknown-variant fallback"), a block kind outside the schema's
union is modelled by `unknownKind`; such a block fails schema validation.
Fields whose validation is carried by the Lean types themselves (string ids,
numeric usage counts, the fixed role/type literals) always pass. -/

inductive ContentBlock where
  | text (text : String)
  | toolUse (id name : String)
  | serverToolUse (id : String)
  | webSearchToolResult (toolUseId : String)
  | thinking (signature thinking : String)
  | redactedThinking (data : String)
  | unknownKind (tag : String)
deriving DecidableEq, Repr

/-- The provider's aggregated final message (`stream.finalMessage()`). -/
structure AnthropicMessage where
  id : String
  content : List ContentBlock
  model : String
  stopReason : Option String
  inputTokens : Nat
  outputTokens : Nat
deriving DecidableEq, Repr

/-- Membership of a block in the closed union `ContentBlockSchema`. -/
def blockInSchema : ContentBlock → Bool
  | .unknownKind _ => false
  | _ => true

/-- The values of `StopReasonSchema`. -/
def stopReasons : List String :=
  ["end_turn", "max_tokens", "stop_sequence", "tool_use", "pause_turn", "refusal"]

/-- Does a final message pass `MessageSchema.parse`? -/
def messageInSchema (m : AnthropicMessage) : Bool :=
  m.content.all blockInSchema &&
    (match m.stopReason with
     | none => true
     | some r => stopReasons.contains r)

/-- A wire `StreamEvent` (`StreamingResponseSchema`). -/
inductive StreamEvent where
  | delta (content : String)
  | complete (response : AnthropicMessage)
  | error (err : String)
deriving DecidableEq, Repr

/-- Does an outgoing event pass `StreamingResponseSchema.parse`? `delta` and
`error` frames are structurally valid; a `complete` frame requires its
`response` to pass `MessageSchema`. -/
def streamEventInSchema : StreamEvent → Bool
  | .delta _ => true
  | .error _ => true
  | .complete r => messageInSchema r

def isTerminalEvent : StreamEvent → Bool
  | .delta _ => false
  | .complete _ => true
  | .error _ => true

def isErrorEvent : StreamEvent → Bool
  | .error _ => true
  | _ => false

def countErrors (l : List StreamEvent) : Nat :=
  (l.filter isErrorEvent).length

/-- One run of `anthropic.messages.stream(...)`: the provider yields some text
deltas and then either delivers a final message or raises an exception (at any
point, including during `finalMessage()`). -/
inductive ProviderRun where
  | ok (deltas : List String) (finalMessage : AnthropicMessage)
  | fail (deltas : List String) (errMsg : String)
deriving DecidableEq, Repr

/-- The message of the `ZodError` thrown when `StreamingResponseSchema.parse`
rejects the final message (opaque to this model). -/
def encodingFailureMsg : String := "StreamingResponseSchema validation failed"

/-! ## The two relay stream bodies -/

/-- Events enqueued by the `ReadableStream` body of the standalone chat
handler (`handleChatRequest`, part_008 lines 106-156). Its `enqueue` validates
each frame with `StreamingResponseSchema.parse` inside its own `try/catch`
that only logs: a frame failing validation is dropped silently. A provider
exception reaches the surrounding catch, which enqueues one `error` event. -/
def handlerStreamEvents (run : ProviderRun) : List StreamEvent :=
  match run with
  | .fail ds e => ds.map StreamEvent.delta ++ [StreamEvent.error e]
  | .ok ds fin =>
    ds.map StreamEvent.delta ++
      (if streamEventInSchema (StreamEvent.complete fin) then
        [StreamEvent.complete fin]
      else [])

/-- Events enqueued by the `/api/chat` POST `ReadableStream` body (part_001
lines 61-115). Here `enqueue` calls `StreamingResponseSchema.parse` with no
local catch, so a validation failure of the final message propagates to the
outer catch, which enqueues one `error` event carrying the thrown message. -/
def directStreamEvents (run : ProviderRun) : List StreamEvent :=
  match run with
  | .fail ds e => ds.map StreamEvent.delta ++ [StreamEvent.error e]
  | .ok ds fin =>
    ds.map StreamEvent.delta ++
      (if streamEventInSchema (StreamEvent.complete fin) then
        [StreamEvent.complete fin]
      else [StreamEvent.error encodingFailureMsg])

/-! ## The two relay endpoints -/

/-- Response of the standalone chat handler. -/
inductive ChatResponse where
  | streamResponse (events : List StreamEvent)
  | serverError (message : String)
deriving DecidableEq, Repr

/-- `handleChatRequest` (part_008), after a successful `ChatRequestSchema`
parse. Sanitization and conversation validation run inside the outer `try`;
a thrown validation error is caught and returned as a JSON error response.
The API-key check sits between validation and the provider call. The second
component counts calls of `anthropic.messages.stream`. -/
def handleChatRequest (messages : List Msg) (apiKeyConfigured : Bool)
    (run : ProviderRun) : ChatResponse × Nat :=
  match validateConversation (sanitizeMessages messages) with
  | .error e => (.serverError e, 0)
  | .ok _ =>
    if apiKeyConfigured then (.streamResponse (handlerStreamEvents run), 1)
    else (.serverError "Anthropic API key not configured", 0)

/-- Events emitted on a channel emitter by the `sendMessages` mutation. -/
inductive ChannelEvent where
  | chunk (event : StreamEvent)
  | channelError (message : String)
deriving DecidableEq, Repr

/-- The `sendMessages` tRPC mutation (part_007 lines 155-228): validation runs
before the provider call; a thrown error is emitted on the channel as an
`error` event and rethrown (rejecting the mutation). On success the provider
stream is opened once; deltas and the final message are emitted as `chunk`
events (this `enqueue` performs no schema parse); a provider exception is
emitted as a channel `error` and rethrown. Result components: the mutation
outcome, the provider call count, and the channel events. -/
def sendMessages (messages : List Msg) (channelId : String) (run : ProviderRun) :
    Except String String × Nat × List ChannelEvent :=
  match validateConversation (sanitizeMessages messages) with
  | .error e => (.error e, 0, [ChannelEvent.channelError e])
  | .ok _ =>
    match run with
    | .ok ds fin =>
      (.ok channelId, 1,
        ds.map (fun d => ChannelEvent.chunk (StreamEvent.delta d)) ++
          [ChannelEvent.chunk (StreamEvent.complete fin)])
    | .fail ds e =>
      (.error e, 1,
        ds.map (fun d => ChannelEvent.chunk (StreamEvent.delta d)) ++
          [ChannelEvent.channelError e])

/-- C4: a request whose messages fail sanitization-plus-conversation-validation
receives a validation error response and causes zero provider-stream calls, in
both the standalone handler and the tRPC mutation; conversely a provider call
happens only when validation succeeded. -/
theorem validation_precedes_provider_call (messages : List Msg) (key : Bool)
    (channelId : String) (run : ProviderRun) :
    ((validateConversation (sanitizeMessages messages)).isOk = false →
      (handleChatRequest messages key run).2 = 0 ∧
        (∃ e, (handleChatRequest messages key run).1 = ChatResponse.serverError e) ∧
        (sendMessages messages channelId run).2.1 = 0 ∧
        (∃ e, (sendMessages messages channelId run).1 = Except.error e)) ∧
      ((handleChatRequest messages key run).2 ≠ 0 →
        (validateConversation (sanitizeMessages messages)).isOk = true) ∧
      ((sendMessages messages channelId run).2.1 ≠ 0 →
        (validateConversation (sanitizeMessages messages)).isOk = true) := by
  rcases hv : validateConversation (sanitizeMessages messages) with e | ok
  · refine ⟨fun _ => ?_, fun hn => ?_, fun hn => ?_⟩
    · refine ⟨?_, ⟨e, ?_⟩, ?_, ⟨e, ?_⟩⟩ <;>
        simp [handleChatRequest, sendMessages, hv]
    · exfalso
      apply hn
      simp [handleChatRequest, hv]
    · exfalso
      apply hn
      simp [sendMessages, hv]
  · refine ⟨fun hfalse => ?_, fun _ => rfl, fun _ => rfl⟩
    simp [Except.isOk, Except.toBool] at hfalse

/-- A concrete well-formed final message. -/
def wFinal : AnthropicMessage :=
  { id := "msg_01", content := [ContentBlock.text "Hello"],
    model := "claude-3-7-sonnet-20250219", stopReason := some "end_turn",
    inputTokens := 1, outputTokens := 2 }

/-- Witness for C4 at the concrete empty request of Scenario 2
(`messages: []`): validation fails and no provider call is made. -/
theorem validation_precedes_provider_call_witness :
    (handleChatRequest [] true (ProviderRun.ok ["Hel"] wFinal)).2 = 0 ∧
      (∃ e, (handleChatRequest [] true (ProviderRun.ok ["Hel"] wFinal)).1 =
        ChatResponse.serverError e) ∧
      (sendMessages [] "chan-1" (ProviderRun.ok ["Hel"] wFinal)).2.1 = 0 ∧
      (∃ e, (sendMessages [] "chan-1" (ProviderRun.ok ["Hel"] wFinal)).1 =
        Except.error e) :=
  (validation_precedes_provider_call [] true "chan-1"
    (ProviderRun.ok ["Hel"] wFinal)).1 (by decide)

/-! ## C5: terminal-event discipline of the relay streams -/

theorem mem_map_delta_not_terminal (ds : List String) :
    ∀ e ∈ ds.map StreamEvent.delta, isTerminalEvent e = false := by
  intro e he
  rw [List.mem_map] at he
  obtain ⟨d, _, rfl⟩ := he
  rfl

theorem mem_map_delta_not_error (ds : List String) :
    ∀ e ∈ ds.map StreamEvent.delta, isErrorEvent e = false := by
  intro e he
  rw [List.mem_map] at he
  obtain ⟨d, _, rfl⟩ := he
  rfl

theorem filter_delta_terminal_nil (ds : List String) :
    (ds.map StreamEvent.delta).filter isTerminalEvent = [] :=
  List.filter_eq_nil.mpr (fun e he => by rw [mem_map_delta_not_terminal ds e he]; simp)

theorem filter_delta_error_nil (ds : List String) :
    (ds.map StreamEvent.delta).filter isErrorEvent = [] :=
  List.filter_eq_nil.mpr (fun e he => by rw [mem_map_delta_not_error ds e he]; simp)

/-- Shape lemma: events of the form `deltas ++ at-most-one-terminal` have at
most one terminal event, none before the last position. -/
theorem deltas_append_terminal_ok (ds : List String) (tail : List StreamEvent)
    (htail : tail.length ≤ 1) :
    ((ds.map StreamEvent.delta ++ tail).filter isTerminalEvent).length ≤ 1 ∧
      ∀ e ∈ (ds.map StreamEvent.delta ++ tail).dropLast, isTerminalEvent e = false := by
  constructor
  · rw [List.filter_append, filter_delta_terminal_nil, List.nil_append]
    calc (tail.filter isTerminalEvent).length ≤ tail.length :=
          List.length_filter_le _ _
      _ ≤ 1 := htail
  · intro e he
    rcases htail_cases : tail with _ | ⟨t, rest⟩
    · rw [htail_cases, List.append_nil] at he
      exact mem_map_delta_not_terminal ds e ((List.dropLast_sublist _).subset he)
    · rw [htail_cases] at htail
      have : rest = [] := by
        rw [List.length_cons] at htail
        exact List.eq_nil_of_length_eq_zero (by omega)
      subst this
      rw [htail_cases] at he
      rw [List.dropLast_concat] at he
      exact mem_map_delta_not_terminal ds e he

/-- A provider final message containing a block kind outside the schema's
closed union: it fails `MessageSchema` validation. -/
def badFinal : AnthropicMessage :=
  { id := "msg_02", content := [ContentBlock.unknownKind "competitor_block"],
    model := "claude-3-7-sonnet-20250219", stopReason := none,
    inputTokens := 0, outputTokens := 0 }

/-- C5 counterexample: the claim demands that an exception during encoding
yield exactly one `error` event, but in the standalone chat handler an
encoding failure of the final message (`StreamingResponseSchema.parse` throws
inside `enqueue`, whose catch only logs) emits zero `error` events — the
stream simply closes with no terminal event at all. -/
theorem relay_error_on_encoding_counterexample :
    streamEventInSchema (StreamEvent.complete badFinal) = false ∧
      handlerStreamEvents (ProviderRun.ok [] badFinal) = [] ∧
      countErrors (handlerStreamEvents (ProviderRun.ok [] badFinal)) = 0 :=
  ⟨rfl, rfl, rfl⟩

/-- C5 amended: for every provider run, both relay stream bodies emit at most
one `complete`-or-`error` event and emit no event after it (every event before
the last is a `delta`); a provider exception yields exactly one `error` event
in both bodies; on an encoding failure of the final message the direct
`/api/chat` body emits exactly one `error` event, while the standalone
handler's body drops the invalid frame silently and terminates with no
terminal event at all. -/
theorem handlerStreamEvents_ok (ds : List String) (fin : AnthropicMessage) :
    handlerStreamEvents (ProviderRun.ok ds fin) =
      ds.map StreamEvent.delta ++
        (if streamEventInSchema (StreamEvent.complete fin) then
          [StreamEvent.complete fin]
        else []) := rfl

theorem handlerStreamEvents_fail (ds : List String) (e : String) :
    handlerStreamEvents (ProviderRun.fail ds e) =
      ds.map StreamEvent.delta ++ [StreamEvent.error e] := rfl

theorem directStreamEvents_ok (ds : List String) (fin : AnthropicMessage) :
    directStreamEvents (ProviderRun.ok ds fin) =
      ds.map StreamEvent.delta ++
        (if streamEventInSchema (StreamEvent.complete fin) then
          [StreamEvent.complete fin]
        else [StreamEvent.error encodingFailureMsg]) := rfl

theorem directStreamEvents_fail (ds : List String) (e : String) :
    directStreamEvents (ProviderRun.fail ds e) =
      ds.map StreamEvent.delta ++ [StreamEvent.error e] := rfl

theorem relay_terminal_event_discipline (run : ProviderRun) :
    (((handlerStreamEvents run).filter isTerminalEvent).length ≤ 1 ∧
      ∀ e ∈ (handlerStreamEvents run).dropLast, isTerminalEvent e = false) ∧
    (((directStreamEvents run).filter isTerminalEvent).length ≤ 1 ∧
      ∀ e ∈ (directStreamEvents run).dropLast, isTerminalEvent e = false) ∧
    (∀ ds e, run = ProviderRun.fail ds e →
      countErrors (handlerStreamEvents run) = 1 ∧
        countErrors (directStreamEvents run) = 1) ∧
    (∀ ds fin, run = ProviderRun.ok ds fin →
      streamEventInSchema (StreamEvent.complete fin) = false →
      countErrors (directStreamEvents run) = 1 ∧
        ((handlerStreamEvents run).filter isTerminalEvent).length = 0) := by
  refine ⟨?_, ?_, ?_, ?_⟩
  · rcases run with ⟨ds, fin⟩ | ⟨ds, e⟩
    · rw [handlerStreamEvents_ok]
      by_cases h : streamEventInSchema (StreamEvent.complete fin) = true
      · rw [if_pos h]
        exact deltas_append_terminal_ok ds _ (by simp)
      · rw [if_neg h]
        exact deltas_append_terminal_ok ds _ (by simp)
    · rw [handlerStreamEvents_fail]
      exact deltas_append_terminal_ok ds _ (by simp)
  · rcases run with ⟨ds, fin⟩ | ⟨ds, e⟩
    · rw [directStreamEvents_ok]
      by_cases h : streamEventInSchema (StreamEvent.complete fin) = true
      · rw [if_pos h]
        exact deltas_append_terminal_ok ds _ (by simp)
      · rw [if_neg h]
        exact deltas_append_terminal_ok ds _ (by simp)
    · rw [directStreamEvents_fail]
      exact deltas_append_terminal_ok ds _ (by simp)
  · rintro ds e rfl
    constructor
    · show ((handlerStreamEvents (ProviderRun.fail ds e)).filter isErrorEvent).length = 1
      rw [handlerStreamEvents_fail, List.filter_append, filter_delta_error_nil,
        List.nil_append]
      rfl
    · show ((directStreamEvents (ProviderRun.fail ds e)).filter isErrorEvent).length = 1
      rw [directStreamEvents_fail, List.filter_append, filter_delta_error_nil,
        List.nil_append]
      rfl
  · rintro ds fin rfl hbad
    have hbad2 : ¬ (streamEventInSchema (StreamEvent.complete fin) = true) := by
      rw [hbad]
      simp
    constructor
    · show ((directStreamEvents (ProviderRun.ok ds fin)).filter isErrorEvent).length = 1
      rw [directStreamEvents_ok, if_neg hbad2, List.filter_append,
        filter_delta_error_nil, List.nil_append]
      rfl
    · rw [handlerStreamEvents_ok, if_neg hbad2, List.append_nil,
        filter_delta_terminal_nil]
      rfl

/-- Witness for C5's amended theorem: at a concrete failing provider run,
exactly one `error` event is emitted by each relay body. -/
theorem relay_terminal_event_discipline_witness :
    countErrors (handlerStreamEvents (ProviderRun.fail ["Hel"] "rate limited")) = 1 ∧
      countErrors (directStreamEvents (ProviderRun.fail ["Hel"] "rate limited")) = 1 :=
  (relay_terminal_event_discipline
    (ProviderRun.fail ["Hel"] "rate limited")).2.2.1 ["Hel"] "rate limited" rfl

/-! ## A model of `JSON.parse` for the client stream decoder

The client read loop decodes each newline-delimited frame with `JSON.parse`
followed by `StreamingResponseSchema.safeParse`. JSON values are modelled by
`Json`; numeric literals are modelled as (optionally negated) integers — the
stream frames only carry integral token counts. The parser is a fuel-indexed
recursive-descent parser over the character list; the fuel only bounds the
recursion and is chosen large enough for any input of the given length. -/

inductive Json where
  | null
  | bool (b : Bool)
  | num (n : Int)
  | str (s : String)
  | arr (elems : List Json)
  | obj (fields : List (String × Json))

/-- JSON insignificant whitespace. -/
def jsonWs (c : Char) : Bool :=
  c = ' ' || c = '\t' || c = '\n' || c = '\r'

def skipWs (cs : List Char) : List Char :=
  cs.dropWhile jsonWs

/-- The value of a hexadecimal digit. -/
def hexVal (c : Char) : Option Nat :=
  if '0' ≤ c ∧ c ≤ '9' then some (c.toNat - 48)
  else if 'a' ≤ c ∧ c ≤ 'f' then some (c.toNat - 87)
  else if 'A' ≤ c ∧ c ≤ 'F' then some (c.toNat - 55)
  else none

/-- Parse the body of a JSON string (after the opening quote), returning the
unescaped characters and the input after the closing quote. -/
def parseStrChars : List Char → Option (List Char × List Char)
  | [] => none
  | '"' :: rest => some ([], rest)
  | '\\' :: 'u' :: h1 :: h2 :: h3 :: h4 :: rest =>
    match hexVal h1, hexVal h2, hexVal h3, hexVal h4 with
    | some a, some b, some c, some d =>
      match parseStrChars rest with
      | none => none
      | some (s, r) => some (Char.ofNat (4096 * a + 256 * b + 16 * c + d) :: s, r)
    | _, _, _, _ => none
  | '\\' :: e :: rest =>
    let esc : Option Char :=
      if e = '"' then some '"'
      else if e = '\\' then some '\\'
      else if e = '/' then some '/'
      else if e = 'n' then some '\n'
      else if e = 't' then some '\t'
      else if e = 'r' then some '\r'
      else if e = 'b' then some '\x08'
      else if e = 'f' then some '\x0c'
      else none
    match esc with
    | none => none
    | some c =>
      match parseStrChars rest with
      | none => none
      | some (s, r) => some (c :: s, r)
  | c :: rest =>
    match parseStrChars rest with
    | none => none
    | some (s, r) => some (c :: s, r)

/-- Parse a run of decimal digits into a natural number. -/
def parseDigits (cs : List Char) : Option (Nat × List Char) :=
  let digits := cs.takeWhile Char.isDigit
  if digits = [] then none
  else some (digits.foldl (fun acc c => 10 * acc + (c.toNat - 48)) 0,
    cs.dropWhile Char.isDigit)

mutual

/-- Parse one JSON value. -/
def parseVal (fuel : Nat) (cs : List Char) : Option (Json × List Char) :=
  match fuel with
  | 0 => none
  | fuel + 1 =>
    match skipWs cs with
    | 'n' :: 'u' :: 'l' :: 'l' :: rest => some (.null, rest)
    | 't' :: 'r' :: 'u' :: 'e' :: rest => some (.bool true, rest)
    | 'f' :: 'a' :: 'l' :: 's' :: 'e' :: rest => some (.bool false, rest)
    | '"' :: rest =>
      match parseStrChars rest with
      | none => none
      | some (s, r) => some (.str (String.mk s), r)
    | '[' :: rest =>
      match skipWs rest with
      | ']' :: r2 => some (.arr [], r2)
      | r2 => parseElems fuel r2 []
    | '\x7b' :: rest =>
      match skipWs rest with
      | '\x7d' :: r2 => some (.obj [], r2)
      | r2 => parseFields fuel r2 []
    | '-' :: rest =>
      match parseDigits rest with
      | none => none
      | some (n, r) => some (.num (-(n : Int)), r)
    | rest =>
      match parseDigits rest with
      | none => none
      | some (n, r) => some (.num (n : Int), r)

/-- Parse the elements of a non-empty JSON array (after `[`). -/
def parseElems (fuel : Nat) (cs : List Char) (acc : List Json) :
    Option (Json × List Char) :=
  match fuel with
  | 0 => none
  | fuel + 1 =>
    match parseVal fuel cs with
    | none => none
    | some (v, rest) =>
      match skipWs rest with
      | ',' :: r2 => parseElems fuel r2 (acc ++ [v])
      | ']' :: r2 => some (.arr (acc ++ [v]), r2)
      | _ => none

/-- Parse the fields of a non-empty JSON object (after the opening brace). -/
def parseFields (fuel : Nat) (cs : List Char) (acc : List (String × Json)) :
    Option (Json × List Char) :=
  match fuel with
  | 0 => none
  | fuel + 1 =>
    match skipWs cs with
    | '"' :: rest =>
      match parseStrChars rest with
      | none => none
      | some (k, r1) =>
        match skipWs r1 with
        | ':' :: r2 =>
          match parseVal fuel r2 with
          | none => none
          | some (v, r3) =>
            match skipWs r3 with
            | ',' :: r4 => parseFields fuel r4 (acc ++ [(String.mk k, v)])
            | '\x7d' :: r4 => some (.obj (acc ++ [(String.mk k, v)]), r4)
            | _ => none
        | _ => none
    | _ => none

end

/-- Model of `JSON.parse(line)`: `none` when the JavaScript call throws. -/
def jsonParse (cs : List Char) : Option Json :=
  match parseVal (2 * cs.length + 4) cs with
  | some (v, rest) => if skipWs rest = [] then some v else none
  | none => none

/-! ## `StreamingResponseSchema.safeParse` on decoded JSON

`zod` object schemas ignore unknown keys; `.optional()` fields accept a
missing key; present fields must have the declared shape. `response` must pass
the `MessageSchema` of `types/anthropic.schema.ts` (modelled on `Json` by
`jsonIsMessage` below). -/

def lookupField (fields : List (String × Json)) (key : String) : Option Json :=
  (fields.find? (fun p => p.1 = key)).map Prod.snd

def isJsonString : Option Json → Bool
  | none => true
  | some (.str _) => true
  | _ => false

/-- `z.string().nullable().optional()`. -/
def isJsonStringNullable : Option Json → Bool
  | none => true
  | some .null => true
  | some (.str _) => true
  | _ => false

def isJsonNum : Option Json → Bool
  | some (.num _) => true
  | _ => false

/-- `z.number().nullable().optional()`. -/
def isJsonNumNullable : Option Json → Bool
  | none => true
  | some .null => true
  | some (.num _) => true
  | _ => false

/-- One citation entry of `TextBlockSchema` (a union of four location
kinds, each an object with a `type` literal and location fields). -/
def jsonIsCitation (j : Json) : Bool :=
  match j with
  | .obj fields =>
    (match lookupField fields "type" with
     | some (.str t) =>
       (t = "char_location" &&
          isJsonString (lookupField fields "cited_text") &&
          isJsonNum (lookupField fields "document_index") &&
          isJsonNum (lookupField fields "start_char_index") &&
          isJsonNum (lookupField fields "end_char_index")) ||
       (t = "page_location" &&
          isJsonString (lookupField fields "cited_text") &&
          isJsonNum (lookupField fields "document_index") &&
          isJsonNum (lookupField fields "start_page_number") &&
          isJsonNum (lookupField fields "end_page_number")) ||
       (t = "content_block_location" &&
          isJsonString (lookupField fields "cited_text") &&
          isJsonNum (lookupField fields "document_index") &&
          isJsonNum (lookupField fields "start_block_index") &&
          isJsonNum (lookupField fields "end_block_index")) ||
       (t = "web_search_result_location" &&
          isJsonString (lookupField fields "cited_text") &&
          isJsonString (lookupField fields "encrypted_index") &&
          isJsonString (lookupField fields "url"))
     | _ => false)
  | _ => false

/-- `ContentBlockSchema` on decoded JSON: the closed six-kind union. -/
def jsonIsBlock (j : Json) : Bool :=
  match j with
  | .obj fields =>
    (match lookupField fields "type" with
     | some (.str t) =>
       (t = "text" && isJsonString (lookupField fields "text") &&
         (match lookupField fields "citations" with
          | none => true
          | some .null => true
          | some (.arr cs) => cs.all jsonIsCitation
          | some _ => false)) ||
       (t = "tool_use" && isJsonString (lookupField fields "id") &&
         isJsonString (lookupField fields "name")) ||
       (t = "server_tool_use" && isJsonString (lookupField fields "id") &&
         (match lookupField fields "name" with
          | some (.str n) => n = "web_search"
          | _ => false)) ||
       (t = "web_search_tool_result" &&
         isJsonString (lookupField fields "tool_use_id")) ||
       (t = "thinking" && isJsonString (lookupField fields "signature") &&
         isJsonString (lookupField fields "thinking")) ||
       (t = "redacted_thinking" && isJsonString (lookupField fields "data"))
     | _ => false)
  | _ => false

/-- `UsageSchema` on decoded JSON. -/
def jsonIsUsage (j : Json) : Bool :=
  match j with
  | .obj fields =>
    isJsonNum (lookupField fields "input_tokens") &&
      isJsonNum (lookupField fields "output_tokens") &&
      isJsonNumNullable (lookupField fields "cache_creation_input_tokens") &&
      isJsonNumNullable (lookupField fields "cache_read_input_tokens")
  | _ => false

/-- `MessageSchema` on decoded JSON (`ModelSchema` ends in `z.string()`, so
any string passes the `model` field). -/
def jsonIsMessage (j : Json) : Bool :=
  match j with
  | .obj fields =>
    isJsonString (lookupField fields "id") &&
      (match lookupField fields "content" with
       | some (.arr blocks) => blocks.all jsonIsBlock
       | _ => false) &&
      isJsonString (lookupField fields "model") &&
      (match lookupField fields "role" with
       | some (.str r) => r = "assistant"
       | _ => false) &&
      (match lookupField fields "type" with
       | some (.str t) => t = "message"
       | _ => false) &&
      (match lookupField fields "stop_reason" with
       | none => true
       | some .null => true
       | some (.str r) => stopReasons.contains r
       | some _ => false) &&
      isJsonStringNullable (lookupField fields "stop_sequence") &&
      (match lookupField fields "usage" with
       | some u => jsonIsUsage u
       | none => false)
  | _ => false

/-- A client-side decoded `StreamEvent` as produced by
`StreamingResponseSchema.safeParse`: `type` is the enum tag; the three payload
fields are optional and carried as parsed. -/
inductive ClientEvent where
  | deltaEv (content : Option String)
  | completeEv (response : Option Json)
  | errorEv (err : Option String)

def getStrField (fields : List (String × Json)) (key : String) : Option String :=
  match lookupField fields key with
  | some (.str s) => some s
  | _ => none

/-- Model of `StreamingResponseSchema.safeParse(j)`: `none` is a schema
failure (the line is skipped by the read loop). -/
def schemaParse (j : Json) : Option ClientEvent :=
  match j with
  | .obj fields =>
    match lookupField fields "type" with
    | some (.str t) =>
      let contentOk := isJsonString (lookupField fields "content")
      let responseOk :=
        match lookupField fields "response" with
        | none => true
        | some r => jsonIsMessage r
      let errorOk := isJsonString (lookupField fields "error")
      if contentOk && responseOk && errorOk then
        if t = "delta" then some (.deltaEv (getStrField fields "content"))
        else if t = "complete" then some (.completeEv (lookupField fields "response"))
        else if t = "error" then some (.errorEv (getStrField fields "error"))
        else none
      else none
    | _ => none
  | _ => none

/-! ## The client stream read loop (`hooks/useChat.tsx` lines 129-212)

```js
while (true) {
  const { done, value } = await reader.read();
  if (done) break;
  const chunk = decoder.decode(value);
  const lines = chunk.split("\n");
  for (const line of lines) {
    if (!line.trim()) continue;
    const { data, error } = StreamingResponseSchema.safeParse(JSON.parse(line));
    if (!data || error) continue;
    if (data.type === "delta") { ... } else if (...) { ... }
    else if (data.type === "error") { throw new Error(data.error); }
  }
}
```

`JSON.parse` throwing on a malformed line escapes every loop (nothing more is
decoded), as does the `throw` on an `error` event; a line failing schema
validation is skipped. The decode result is the list of events acted upon plus
a flag recording whether the loop was exited by a throw. There is no carry
buffer: each read's text is split on newlines by itself. -/

/-- `chunk.split("\n")` on character lists. -/
def splitNl : List Char → List (List Char)
  | [] => [[]]
  | c :: rest =>
    if c = '\n' then [] :: splitNl rest
    else
      match splitNl rest with
      | [] => [[c]]
      | l :: ls => (c :: l) :: ls

/-- Sequencing of two decode results: if the first aborted, the second never
runs. -/
def combineDec (r1 r2 : List ClientEvent × Bool) : List ClientEvent × Bool :=
  if r1.2 then r1 else (r1.1 ++ r2.1, r2.2)

/-- Decoding of a single line of the read loop. -/
def decodeLine (line : List Char) : List ClientEvent × Bool :=
  if trimChars line = [] then ([], false)
  else
    match jsonParse line with
    | none => ([], true)
    | some j =>
      match schemaParse j with
      | none => ([], false)
      | some (.errorEv e) => ([.errorEv e], true)
      | some ev => ([ev], false)

def decodeLines : List (List Char) → List ClientEvent × Bool
  | [] => ([], false)
  | line :: rest => combineDec (decodeLine line) (decodeLines rest)

/-- The whole read loop over a sequence of reads (chunks). -/
def decodeChunks : List (List Char) → List ClientEvent × Bool
  | [] => ([], false)
  | chunk :: rest => combineDec (decodeLines (splitNl chunk)) (decodeChunks rest)

/-! ### Decoder algebra -/

theorem listBindCons {α β : Type} (x : α) (xs : List α) (f : α → List β) :
    (x :: xs).bind f = f x ++ xs.bind f := rfl

theorem listJoinCons {α : Type} (a : List α) (l : List (List α)) :
    (a :: l).join = a ++ l.join := rfl

theorem combineDec_abort (es : List ClientEvent) (r : List ClientEvent × Bool) :
    combineDec (es, true) r = (es, true) := rfl

theorem combineDec_cont (es : List ClientEvent) (r : List ClientEvent × Bool) :
    combineDec (es, false) r = (es ++ r.1, r.2) := rfl

theorem combineDec_nil_left (r : List ClientEvent × Bool) :
    combineDec ([], false) r = r := rfl

theorem combineDec_nil_right (r : List ClientEvent × Bool) :
    combineDec r ([], false) = r := by
  rcases r with ⟨es, _ | _⟩ <;> simp [combineDec]

theorem combineDec_assoc (a b c : List ClientEvent × Bool) :
    combineDec (combineDec a b) c = combineDec a (combineDec b c) := by
  rcases a with ⟨ea, _ | _⟩ <;> rcases b with ⟨eb, _ | _⟩ <;>
    simp [combineDec]

theorem decodeLines_append (l1 l2 : List (List Char)) :
    decodeLines (l1 ++ l2) = combineDec (decodeLines l1) (decodeLines l2) := by
  induction l1 with
  | nil => rw [List.nil_append, decodeLines, combineDec_nil_left]
  | cons x l1 ih =>
    rw [List.cons_append, decodeLines, decodeLines, ih, combineDec_assoc]

theorem decodeChunks_eq_bind (chunks : List (List Char)) :
    decodeChunks chunks = decodeLines (chunks.bind splitNl) := by
  induction chunks with
  | nil => rfl
  | cons c rest ih =>
    rw [decodeChunks, ih, listBindCons, decodeLines_append]

/-- Lines that trim to empty are skipped by the read loop. -/
def nonBlank (l : List Char) : Bool := decide (trimChars l ≠ [])

theorem nonBlank_nil : nonBlank [] = false := rfl

theorem decodeLine_blank (l : List Char) (h : trimChars l = []) :
    decodeLine l = ([], false) := by
  unfold decodeLine
  rw [if_pos h]

theorem decodeLines_filter_nonBlank (ls : List (List Char)) :
    decodeLines ls = decodeLines (ls.filter nonBlank) := by
  induction ls with
  | nil => rfl
  | cons l rest ih =>
    by_cases h : trimChars l = []
    · have hnb : nonBlank l = false := by
        unfold nonBlank
        rw [h]
        simp
      rw [decodeLines, decodeLine_blank l h, combineDec_nil_left, ih,
        List.filter_cons, hnb]
      simp
    · have hnb : nonBlank l = true := by
        unfold nonBlank
        simpa using h
      rw [decodeLines, List.filter_cons, hnb]
      simp only [if_true]
      rw [decodeLines, ih]

/-! ### `split("\n")` at frame boundaries -/

theorem splitNl_cons_of_ne (c : Char) (rest : List Char) (hc : ¬ c = '\n') :
    splitNl (c :: rest) =
      match splitNl rest with
      | [] => [[c]]
      | l :: ls => (c :: l) :: ls := by
  rw [splitNl, if_neg hc]

theorem splitNl_ne_nil : ∀ l : List Char, splitNl l ≠ []
  | [] => by simp [splitNl]
  | c :: rest => by
    by_cases hc : c = '\n'
    · subst hc
      rw [splitNl]
      simp
    · rw [splitNl_cons_of_ne c rest hc]
      rcases h : splitNl rest with _ | ⟨l, ls⟩ <;> simp

theorem splitNl_frame_append (f : List Char) (rest : List Char)
    (hf : ('\n') ∉ f) :
    splitNl (f ++ '\n' :: rest) = f :: splitNl rest := by
  induction f with
  | nil =>
    rw [List.nil_append, splitNl]
    simp
  | cons c f ih =>
    have hc : ¬ c = '\n' := fun h => hf (h ▸ List.mem_cons_self c f)
    have hf' : ('\n') ∉ f := fun h => hf (List.mem_cons_of_mem c h)
    rw [List.cons_append, splitNl_cons_of_ne c _ hc, ih hf']

/-- A read consisting of whole frames, each followed by its newline. -/
def chunkOfFrames (frames : List (List Char)) : List Char :=
  (frames.map (fun f => f ++ ['\n'])).join

theorem splitNl_chunkOfFrames (frames : List (List Char))
    (h : ∀ f ∈ frames, ('\n') ∉ f) :
    splitNl (chunkOfFrames frames) = frames ++ [[]] := by
  induction frames with
  | nil => rfl
  | cons f fs ih =>
    have hf : ('\n') ∉ f := h f (List.mem_cons_self f fs)
    have hfs : ∀ g ∈ fs, ('\n') ∉ g := fun g hg => h g (List.mem_cons_of_mem f hg)
    unfold chunkOfFrames
    rw [List.map_cons, listJoinCons]
    have : (f ++ ['\n']) ++ (fs.map (fun g => g ++ ['\n'])).join =
        f ++ '\n' :: (fs.map (fun g => g ++ ['\n'])).join := by
      rw [List.append_assoc]
      rfl
    rw [this, splitNl_frame_append f _ hf]
    show f :: splitNl (chunkOfFrames fs) = (f :: fs) ++ [[]]
    rw [ih hfs]
    rfl

theorem reads_bind_splitNl (reads : List (List (List Char)))
    (h : ∀ g ∈ reads, ∀ f ∈ g, ('\n') ∉ f) :
    (reads.map chunkOfFrames).bind splitNl =
      reads.bind (fun g => g ++ [[]]) := by
  induction reads with
  | nil => rfl
  | cons g gs ih =>
    rw [List.map_cons, listBindCons, listBindCons,
      splitNl_chunkOfFrames g (h g (List.mem_cons_self g gs)),
      ih (fun g' hg' => h g' (List.mem_cons_of_mem g hg'))]

theorem filter_nonBlank_groups (reads : List (List (List Char))) :
    (reads.bind (fun g => g ++ [[]])).filter nonBlank =
      reads.join.filter nonBlank := by
  induction reads with
  | nil => rfl
  | cons g gs ih =>
    rw [listBindCons, listJoinCons, List.filter_append, List.filter_append,
      ih]
    have h0 : ([[]] : List (List Char)).filter nonBlank = [] := rfl
    rw [h0, List.append_nil, List.filter_append]

/-- C6 amended (general part): when every read boundary falls on a frame
boundary — each read is a concatenation of whole newline-terminated frames —
the decoded event sequence is the same as delivering the whole stream in one
read. -/
theorem decode_frame_boundary_invariance (reads : List (List (List Char)))
    (h : ∀ g ∈ reads, ∀ f ∈ g, ('\n') ∉ f) :
    decodeChunks (reads.map chunkOfFrames) =
      decodeChunks [chunkOfFrames reads.join] := by
  have hjoin : ∀ f ∈ reads.join, ('\n') ∉ f := by
    intro f hf
    rw [List.mem_join] at hf
    obtain ⟨g, hg, hfg⟩ := hf
    exact h g hg f hfg
  rw [decodeChunks_eq_bind, decodeChunks_eq_bind,
    reads_bind_splitNl reads h]
  have hsingle : ([chunkOfFrames reads.join] : List (List Char)).bind splitNl =
      reads.join ++ [[]] := by
    show splitNl (chunkOfFrames reads.join) ++ [] = reads.join ++ [[]]
    rw [List.append_nil, splitNl_chunkOfFrames reads.join hjoin]
  rw [hsingle,
    decodeLines_filter_nonBlank (reads.bind (fun g => g ++ [[]])),
    decodeLines_filter_nonBlank (reads.join ++ [[]]),
    filter_nonBlank_groups, List.filter_append]
  have : ([[]] : List (List Char)).filter nonBlank = [] := rfl
  rw [this, List.append_nil]

/-! ### C6 concrete frames -/

/-- The wire frame `JSON.stringify({type:"delta",content:"Hi"})`. -/
def frameHi : List Char := "\x7b\"type\":\"delta\",\"content\":\"Hi\"\x7d".data

/-- The first half of `frameHi`, cut mid-frame. -/
def frameHiFirst : List Char := "\x7b\"type\":\"del".data

/-- The second half of `frameHi`. -/
def frameHiSecond : List Char := "ta\",\"content\":\"Hi\"\x7d".data

/-- C6 counterexample: the decoder is not chunk-boundary invariant. The same
byte stream (`frameHi` plus its newline) decodes to one `delta` event when
delivered in a single read, but to no events at all — with the loop aborted by
the `JSON.parse` exception — when split mid-frame into two reads: the trailing
partial frame of the first read is not buffered. -/
theorem decoder_partial_read_counterexample :
    frameHiFirst ++ frameHiSecond = frameHi ∧
      decodeChunks [frameHi ++ ['\n']] =
        ([ClientEvent.deltaEv (some "Hi")], false) ∧
      decodeChunks [frameHiFirst, frameHiSecond ++ ['\n']] = ([], true) :=
  ⟨rfl, rfl, rfl⟩

/-- Witness for the amended C6 theorem: delivering two delta frames as two
frame-aligned reads decodes exactly like one read. -/
theorem decode_frame_boundary_invariance_witness :
    decodeChunks ([[frameHi], [frameHi]].map chunkOfFrames) =
      decodeChunks [chunkOfFrames ([[frameHi], [frameHi]].join)] :=
  decode_frame_boundary_invariance [[frameHi], [frameHi]] (by decide)

/-! ## Client chat messages and the session controller (`hooks/useChat.tsx`) -/

/-- `ChatMessageSchema` of `types/chat.schema.ts`. -/
structure ChatMessage where
  id : String
  role : Role
  content : String
  timestamp : Option Nat
deriving DecidableEq, Repr

/-- Client controller state: the message list, the streaming flag and id, and
the `localStorage` mirror (rewritten from the full message list after every
change by the save effect). -/
structure ControllerState where
  messages : List ChatMessage
  isStreaming : Bool
  streamingMessageId : Option String
  persisted : List ChatMessage
deriving DecidableEq, Repr

/-! ### The `complete` branch (useChat.tsx lines 173-190)

```js
const textBlocks = data.response?.content?.filter((block) => block.type === "text") || [];
const finalContent = textBlocks.length > 0
  ? textBlocks.map((block) => block.text).join("")
  : accumulatedContent;
setMessages((prev) => prev.map((msg) =>
  msg.id === assistantMessageId ? { ...msg, content: finalContent } : msg));
```
-/

def isTextBlock : ContentBlock → Bool
  | .text _ => true
  | _ => false

/-- The `.text` field read by the JS after the `type === "text"` filter (only
ever applied to text blocks). -/
def blockText : ContentBlock → String
  | .text t => t
  | _ => ""

/-- The final content computed by the `complete` branch. -/
def extractFinalContent (response : Option AnthropicMessage)
    (accumulatedContent : String) : String :=
  let textBlocks :=
    (match response with
     | some r => r.content
     | none => []).filter isTextBlock
  if textBlocks.length > 0 then String.join (textBlocks.map blockText)
  else accumulatedContent

/-- The message-list update performed on a `complete` event. -/
def applyComplete (messages : List ChatMessage) (assistantMessageId : String)
    (response : Option AnthropicMessage) (accumulatedContent : String) :
    List ChatMessage :=
  messages.map (fun msg =>
    if msg.id = assistantMessageId then
      { msg with content := extractFinalContent response accumulatedContent }
    else msg)

/-- Spec-side reading: the text fields of the text-typed content blocks. -/
def textTexts (r : AnthropicMessage) : List String :=
  r.content.filterMap (fun b =>
    match b with
    | .text s => some s
    | _ => none)

theorem filter_text_map_eq_textTexts (blocks : List ContentBlock) :
    ((blocks.filter isTextBlock).map blockText) =
      blocks.filterMap (fun b =>
        match b with
        | .text s => some s
        | _ => none) := by
  induction blocks with
  | nil => rfl
  | cons b rest ih =>
    cases b <;> simp [isTextBlock, blockText, List.filter_cons, ih]

/-- C7: a `complete` event replaces exactly the placeholder message's content
(every other message is untouched) with the concatenation of the text fields
of the text-typed blocks of the provider's final message; when the final
message has no text-typed blocks — or no response is attached — the content is
instead the locally accumulated delta text. -/
theorem extractFinalContent_some (r : AnthropicMessage) (acc : String) :
    extractFinalContent (some r) acc =
      if (r.content.filter isTextBlock).length > 0 then
        String.join ((r.content.filter isTextBlock).map blockText)
      else acc := rfl

theorem extractFinalContent_none (acc : String) :
    extractFinalContent none acc = acc := rfl

/-- C7: a `complete` event replaces exactly the placeholder message's content
(every other message is untouched) with the concatenation of the text fields
of the text-typed blocks of the provider's final message; when the final
message has no text-typed blocks — or no response is attached — the content is
instead the locally accumulated delta text. -/
theorem complete_replaces_placeholder_content (msgs : List ChatMessage)
    (pid : String) (response : Option AnthropicMessage) (acc : String) :
    (∀ i : Nat, (applyComplete msgs pid response acc).get? i =
      (msgs.get? i).map (fun m =>
        if m.id = pid then { m with content := extractFinalContent response acc }
        else m)) ∧
    (∀ r, response = some r →
      (textTexts r ≠ [] →
        extractFinalContent response acc = String.join (textTexts r)) ∧
      (textTexts r = [] → extractFinalContent response acc = acc)) ∧
    (response = none → extractFinalContent response acc = acc) := by
  refine ⟨?_, ?_, ?_⟩
  · intro i
    unfold applyComplete
    rw [List.get?_map]
  · rintro r rfl
    have key : (r.content.filter isTextBlock).map blockText = textTexts r :=
      filter_text_map_eq_textTexts r.content
    constructor
    · intro hne
      have hlen : 0 < (r.content.filter isTextBlock).length := by
        rcases Nat.eq_zero_or_pos (r.content.filter isTextBlock).length with h0 | h0
        · exfalso
          apply hne
          rw [← key, List.length_eq_zero.mp h0]
          rfl
        · exact h0
      rw [extractFinalContent_some, if_pos hlen, key]
    · intro hnil
      have h0 : (r.content.filter isTextBlock).length = 0 := by
        have hmap : (r.content.filter isTextBlock).map blockText = [] := by
          rw [key, hnil]
        have := congrArg List.length hmap
        rwa [List.length_map] at this
      rw [extractFinalContent_some, if_neg (by omega)]
  · rintro rfl
    rfl

/-- Witness for C7 at a concrete final message with one text block and at a
response with no text block. -/
theorem complete_replaces_placeholder_content_witness :
    extractFinalContent (some wFinal) "partial" = String.join ["Hello"] :=
  ((complete_replaces_placeholder_content [] "a1" (some wFinal) "partial").2.1
    wFinal rfl).1 (by decide)

/-! ### `sendMessage` entry guard (useChat.tsx lines 62-98) -/

/-- The synchronous prefix of `sendMessage(content)`: the guard
`if (!content.trim() || isStreaming) return;`, the user-message and
empty-placeholder appends, and the transition to `streaming`. `userId` and
`assistantId` model `generateId()`, `now` models `Date.now()`. The returned
flag records whether the network request is issued. -/
def sendMessageStart (st : ControllerState) (content : String)
    (userId assistantId : String) (now : Nat) : ControllerState × Bool :=
  if jsTrim content = "" ∨ st.isStreaming = true then (st, false)
  else
    let userMessage : ChatMessage :=
      { id := userId, role := Role.user, content := jsTrim content,
        timestamp := some now }
    let assistantMessage : ChatMessage :=
      { id := assistantId, role := Role.assistant, content := "",
        timestamp := some now }
    let newMessages := st.messages ++ [userMessage, assistantMessage]
    ({ messages := newMessages, isStreaming := true,
       streamingMessageId := some assistantId, persisted := newMessages },
      true)

/-- C8: `sendMessage(content)` is a no-op when the content trims to empty or
the controller is already streaming — the state (message list, streaming flag,
persisted mirror) is returned unchanged and no request is issued; in
particular a second call while streaming is rejected, never queued (the
resulting state records nothing of the call). -/
theorem sendMessage_noop (st : ControllerState) (content : String)
    (userId assistantId : String) (now : Nat)
    (h : jsTrim content = "" ∨ st.isStreaming = true) :
    sendMessageStart st content userId assistantId now = (st, false) := by
  unfold sendMessageStart
  rw [if_pos h]

/-- A concrete user turn. -/
def wUserTurn : ChatMessage :=
  { id := "u1", role := Role.user, content := "hi", timestamp := some 0 }

/-- A controller state that is mid-stream. -/
def wStreamingState : ControllerState :=
  { messages := [wUserTurn], isStreaming := true,
    streamingMessageId := some "a1", persisted := [wUserTurn] }

/-- The same controller state when idle. -/
def wIdleState : ControllerState :=
  { wStreamingState with isStreaming := false }

/-- Witness for C8: a second `sendMessage` during streaming, and a whitespace
message when idle, both leave the state unchanged and issue no request. -/
theorem sendMessage_noop_witness :
    sendMessageStart wStreamingState "hello" "u2" "a2" 7 =
        (wStreamingState, false) ∧
      sendMessageStart wIdleState "  " "u2" "a2" 7 = (wIdleState, false) :=
  ⟨sendMessage_noop wStreamingState "hello" "u2" "a2" 7 (Or.inr (by decide)),
    sendMessage_noop wIdleState "  " "u2" "a2" 7 (Or.inl (by decide))⟩

/-! ### Cancellation (useChat.tsx lines 53-60 and 197-211)

`stopStreaming()` aborts the in-flight fetch; the pending `reader.read()`
rejects with `AbortError`; its handler runs
`setMessages(prev => prev.filter(msg => msg.id !== assistantMessageId))`
(the filter is unconditional — it does not test whether the placeholder is
still empty); the `finally` blocks clear the abort controller, the streaming
flag, and the streaming id. -/

/-- One `delta` event folded into the placeholder: the placeholder's content
is replaced by the running accumulation. -/
def applyDelta (messages : List ChatMessage) (assistantMessageId : String)
    (acc : String) : List ChatMessage :=
  messages.map (fun msg =>
    if msg.id = assistantMessageId then { msg with content := acc } else msg)

/-- Folding a sequence of received delta texts, threading the accumulated
content exactly as the read loop does. -/
def runDeltas (assistantMessageId : String) :
    List ChatMessage × String → List String → List ChatMessage × String
  | (msgs, acc), [] => (msgs, acc)
  | (msgs, acc), d :: ds =>
    runDeltas assistantMessageId
      (applyDelta msgs assistantMessageId (acc ++ d), acc ++ d) ds

/-- The observable effect of `stopStreaming()` after `deltas` have been folded
into the placeholder: the abort handler removes the placeholder and the
controller returns to idle. -/
def stopAfterDeltas (st : ControllerState) (assistantMessageId : String)
    (deltas : List String) : ControllerState :=
  let folded := (runDeltas assistantMessageId (st.messages, "") deltas).1
  let afterAbort := folded.filter (fun msg => msg.id ≠ assistantMessageId)
  { messages := afterAbort, isStreaming := false, streamingMessageId := none,
    persisted := afterAbort }

def wPlaceholder : ChatMessage :=
  { id := "a1", role := Role.assistant, content := "", timestamp := some 1 }

def wMidStream : ControllerState :=
  { messages := [wUserTurn, wPlaceholder], isStreaming := true,
    streamingMessageId := some "a1", persisted := [wUserTurn, wPlaceholder] }

/-- C9 counterexample: cancelling after one delta (`"Hel"`) has been folded
into the placeholder does not leave the placeholder with its partial content —
the `AbortError` handler removes it unconditionally, so the message list keeps
only the user turn. -/
theorem stop_streaming_keeps_partial_counterexample :
    (stopAfterDeltas wMidStream "a1" ["Hel"]).messages = [wUserTurn] ∧
      (stopAfterDeltas wMidStream "a1" ["Hel"]).messages.all
        (fun m => m.id ≠ "a1") = true ∧
      (["Hel"] : List String) ≠ [] := by
  refine ⟨rfl, rfl, by simp⟩

theorem applyDelta_filter_ne (msgs : List ChatMessage) (aid : String)
    (acc : String) :
    (applyDelta msgs aid acc).filter (fun m => m.id ≠ aid) =
      msgs.filter (fun m => m.id ≠ aid) := by
  induction msgs with
  | nil => rfl
  | cons m rest ih =>
    by_cases h : m.id = aid <;>
      simp [applyDelta, List.filter_cons, h, ih] at ih ⊢ <;>
      simpa [applyDelta] using ih

theorem runDeltas_filter_ne (aid : String) :
    ∀ (ds : List String) (msgs : List ChatMessage) (acc : String),
      ((runDeltas aid (msgs, acc) ds).1).filter (fun m => m.id ≠ aid) =
        msgs.filter (fun m => m.id ≠ aid)
  | [], msgs, acc => rfl
  | d :: ds, msgs, acc => by
    rw [runDeltas, runDeltas_filter_ne aid ds _ _, applyDelta_filter_ne]

/-- C9 amended: for every mid-stream state and every number of already-folded
deltas, cancellation transitions to idle and removes the placeholder message
(regardless of how much partial content it held); all other messages are left
unchanged. -/
theorem stop_streaming_removes_placeholder (st : ControllerState)
    (aid : String) (deltas : List String) :
    (stopAfterDeltas st aid deltas).isStreaming = false ∧
      (stopAfterDeltas st aid deltas).streamingMessageId = none ∧
      (stopAfterDeltas st aid deltas).messages =
        st.messages.filter (fun m => m.id ≠ aid) ∧
      (stopAfterDeltas st aid deltas).persisted =
        st.messages.filter (fun m => m.id ≠ aid) := by
  refine ⟨rfl, rfl, ?_, ?_⟩ <;>
    · show ((runDeltas aid (st.messages, "") deltas).1).filter
          (fun m => m.id ≠ aid) = st.messages.filter (fun m => m.id ≠ aid)
      exact runDeltas_filter_ne aid deltas st.messages ""

/-! ## Environment schema (`EnvSchema`, env schema file)

```ts
export const EnvSchema = z.object({
  ANTHROPIC_KEY: z.string().min(1).max(255),
  PORT: z.coerce.number().default(3000),
});
```

The startup wrapper that applies this schema to `process.env` (the `@/env`
module imported by the server entrypoint, which binds `serve({ port:
ENV.PORT, ... })`) is not under `src/`. Modelled from the spec: startup parses
the environment with `EnvSchema` and fails fast with the schema's error
instead of starting when parsing fails. -/

structure RawEnv where
  anthropicKey : Option String
  port : Option String
deriving DecidableEq, Repr

structure ParsedEnv where
  anthropicKey : String
  port : Int
deriving DecidableEq, Repr

def digitsToNat (ds : List Char) : Nat :=
  ds.foldl (fun acc c => 10 * acc + (c.toNat - 48)) 0

/-- Model of JavaScript `Number(s)` (used by `z.coerce.number()`) on the
relevant inputs: an optionally signed decimal integer string; the empty or
whitespace-only string coerces to 0; anything else is NaN (`none`), which the
schema rejects. -/
def jsNumber (s : String) : Option Int :=
  match trimChars s.data with
  | [] => some 0
  | '-' :: ds =>
    if ds ≠ [] ∧ ds.all Char.isDigit then some (-(digitsToNat ds : Int))
    else none
  | ds =>
    if ds.all Char.isDigit then some ((digitsToNat ds : Int)) else none

/-- `EnvSchema.parse` applied to the raw environment.
`ANTHROPIC_KEY: z.string().min(1).max(255)` — required, non-empty, at most
255 characters. `PORT: z.coerce.number().default(3000)` — an absent `PORT`
takes the default 3000; a present one is coerced with `Number` and must not be
NaN. -/
def parseEnv (env : RawEnv) : Except String ParsedEnv :=
  match env.anthropicKey with
  | none => .error "ANTHROPIC_KEY: Required"
  | some k =>
    if k.length < 1 then
      .error "ANTHROPIC_KEY: String must contain at least 1 character(s)"
    else if k.length > 255 then
      .error "ANTHROPIC_KEY: String must contain at most 255 character(s)"
    else
      match env.port with
      | none => .ok { anthropicKey := k, port := 3000 }
      | some p =>
        match jsNumber p with
        | some n => .ok { anthropicKey := k, port := n }
        | none => .error "PORT: Expected number, received nan"

/-- C10 counterexample: with a credential present and the listen port absent,
`EnvSchema.parse` succeeds with the default port 3000 — startup does not fail,
the server starts on port 3000. -/
theorem missing_port_defaults_counterexample :
    parseEnv { anthropicKey := some "sk-ant-key", port := none } =
      Except.ok { anthropicKey := "sk-ant-key", port := 3000 } := rfl

/-- C10 amended: the provider credential is required — when it is absent (or
empty, or over-long) startup fails fast with a descriptive schema error — but
the listen port is optional: when `PORT` is absent and the credential is
valid, startup succeeds with the default port 3000 rather than failing. -/
theorem env_requires_credential_defaults_port (env : RawEnv) :
    (env.anthropicKey = none → ∃ e, parseEnv env = Except.error e) ∧
      (∀ k, env.anthropicKey = some k → 1 ≤ k.length → k.length ≤ 255 →
        env.port = none →
        parseEnv env = Except.ok { anthropicKey := k, port := 3000 }) := by
  constructor
  · intro hk
    refine ⟨"ANTHROPIC_KEY: Required", ?_⟩
    unfold parseEnv
    rw [hk]
  · intro k hk hmin hmax hp
    obtain ⟨ek, ep⟩ := env
    have hk' : ek = some k := hk
    have hp' : ep = none := hp
    subst hk'
    subst hp'
    have hred : parseEnv { anthropicKey := some k, port := none } =
        (if k.length < 1 then
          Except.error "ANTHROPIC_KEY: String must contain at least 1 character(s)"
        else if k.length > 255 then
          Except.error "ANTHROPIC_KEY: String must contain at most 255 character(s)"
        else Except.ok { anthropicKey := k, port := 3000 }) := rfl
    rw [hred, if_neg (by omega), if_neg (by omega)]

/-- Witness for the amended C10 theorem at a concrete environment: key
present, port absent. -/
theorem env_requires_credential_defaults_port_witness :
    parseEnv { anthropicKey := some "sk-test", port := none } =
      Except.ok { anthropicKey := "sk-test", port := 3000 } :=
  (env_requires_credential_defaults_port
    { anthropicKey := some "sk-test", port := none }).2 "sk-test" rfl
    (by decide) (by decide) rfl

end AnthropicPlay
